import Mathlib

/-!
Verification of the JSON-RPC 2.0 engine (message codec, client correlation
engine, server responder, transport error classification).

The Rust source is shallowly embedded:
* `serde_json::Value` becomes the inductive `Value`; a `BTreeMap<String, Value>`
  (and the client's `HashMap<u64, _>`) is modelled as an association list with
  unique keys, observed only through `aGet` / `aInsert` / `aErase`
  (`contains_key k` is `(aGet m k).isSome`); 64-bit floats, which no claim
  touches, are carried as their 64-bit bit pattern.
* `Result<T, E>` becomes `Except E T`, `Option` stays `Option`.
* `u64` arithmetic is `Nat` with explicit `% 2 ^ 64` where the source increments.
* Effects (mutex-guarded table mutation, channel submission) become explicit
  state passing; observable actions (handler registration and invocation,
  lock acquisition and release) are recorded as events.
-/

namespace JsonRpc

/-- Model of `serde_json::Value` (the era with `I64`/`U64`/`F64` variants).
`F64` is represented by its 64-bit pattern; no claim inspects floats. -/
inductive Value where
  | null : Value
  | bool : Bool → Value
  | i64 : Int → Value
  | u64 : Nat → Value
  | f64 : Nat → Value
  | str : String → Value
  | arr : List Value → Value
  | obj : List (String × Value) → Value

/-- Lookup in an association-list map (`BTreeMap::get` / `HashMap::get`). -/
def aGet {κ β : Type} [DecidableEq κ] : List (κ × β) → κ → Option β
  | [], _ => none
  | (k, v) :: rest, key => if k = key then some v else aGet rest key

/-- Insert-or-replace (`BTreeMap::insert` / `HashMap::insert`). -/
def aInsert {κ β : Type} [DecidableEq κ] : List (κ × β) → κ → β → List (κ × β)
  | [], key, v => [(key, v)]
  | (k, w) :: rest, key, v =>
      if k = key then (key, v) :: rest else (k, w) :: aInsert rest key v

/-- Removal of all entries with the given key (`HashMap::remove`; the map
keeps keys unique, so at most one entry is ever removed). -/
def aErase {κ β : Type} [DecidableEq κ] (m : List (κ × β)) (key : κ) :
    List (κ × β) :=
  m.filter fun p => p.1 ≠ key

/-- Largest `i64` value, for `Value::as_i64` on a `U64`. -/
def i64Max : Nat := 2 ^ 63 - 1

/-- `serde_json::Value::as_i64`. -/
def Value.as_i64 : Value → Option Int
  | .i64 n => some n
  | .u64 n => if n ≤ i64Max then some (n : Int) else none
  | _ => none

/-- `serde_json::Value::as_u64`. -/
def Value.as_u64 : Value → Option Nat
  | .u64 n => some n
  | .i64 n => if 0 ≤ n then some n.toNat else none
  | _ => none

/-- `serde_json::Value::as_string`. -/
def Value.as_string : Value → Option String
  | .str s => some s
  | _ => none

/-- `serde_json::Value::as_object`. -/
def Value.as_object : Value → Option (List (String × Value))
  | .obj m => some m
  | _ => none

/-- `message::Error`: code, message, optional data. -/
structure Error where
  code : Int
  message : String
  data : Option Value

/-- `Error::invalid_request`. -/
def Error.invalid_request : Error := ⟨-32600, "Invalid request", none⟩

/-- `Error::parse_error`. -/
def Error.parse_error : Error := ⟨-32700, "Parse error", none⟩

/-- `Error::method_not_found`. -/
def Error.method_not_found : Error := ⟨-32601, "Method not found", none⟩

/-- `Error::invalid_params`. -/
def Error.invalid_params : Error := ⟨-32602, "Invalid params", none⟩

/-- `Error::internal_error`. -/
def Error.internal_error : Error := ⟨-32603, "Internal error", none⟩

/-- `Error::to_json`: builds `code`, `message`, optional `data`. -/
def Error.to_json (e : Error) : Value :=
  let m := aInsert [] "code" (Value.i64 e.code)
  let m := aInsert m "message" (Value.str e.message)
  let m := match e.data with
    | some d => aInsert m "data" d
    | none => m
  Value.obj m

/-- `Error::from_json`. Faithful to the source: the code value is fetched
from the key `"id"` (`map.get("id")`), not `"code"`. -/
def Error.from_json (json : Value) : Except Error Error :=
  let err := Error.invalid_request
  match json.as_object with
  | none => .error err
  | some map =>
    match aGet map "id" with
    | none => .error err
    | some codeVal =>
      match codeVal.as_i64 with
      | none => .error err
      | some code =>
        match aGet map "message" with
        | none => .error err
        | some msgVal =>
          match msgVal.as_string with
          | none => .error err
          | some message => .ok ⟨code, message, aGet map "data"⟩

/-- `message::Params`: named (map) or positional (sequence) parameters. -/
inductive Params where
  | named : List (String × Value) → Params
  | positional : List Value → Params

/-- `Params::to_json`. -/
def Params.to_json : Params → Value
  | .named map => Value.obj map
  | .positional vec => Value.arr vec

/-- `Params::from_json`: object decodes to named, array to positional,
anything else is an invalid-request error. -/
def Params.from_json : Value → Except Error Params
  | .obj map => .ok (.named map)
  | .arr vec => .ok (.positional vec)
  | _ => .error Error.invalid_request

/-- `message::Request`. -/
structure Request where
  method : String
  params : Option Params
  id : Option Value

/-- `Request::set_id`. -/
def Request.set_id (r : Request) (id : Value) : Request := { r with id := some id }

/-- `Request::to_json`: `jsonrpc`, `method`, optional `params`, optional `id`. -/
def Request.to_json (r : Request) : Value :=
  let m := aInsert [] "jsonrpc" (Value.str "2.0")
  let m := aInsert m "method" (Value.str r.method)
  let m := match r.params with
    | some p => aInsert m "params" p.to_json
    | none => m
  let m := match r.id with
    | some i => aInsert m "id" i
    | none => m
  Value.obj m

/-- `Request::from_json`: requires a string `method`; `id` copied verbatim if
present; `params`, if present, decoded by `Params::from_json`. -/
def Request.from_json (json : Value) : Except Error Request :=
  let err := Error.invalid_request
  match json with
  | .obj map =>
      match aGet map "method" with
      | none => .error err
      | some methodVal =>
        match methodVal.as_string with
        | none => .error err
        | some method =>
          let id := aGet map "id"
          match aGet map "params" with
          | some paramsJson =>
              match Params.from_json paramsJson with
              | .error e => .error e
              | .ok p => .ok ⟨method, some p, id⟩
          | none => .ok ⟨method, none, id⟩
  | _ => .error err

/-- `message::Response`. -/
structure Response where
  payload : Except Error Value
  id : Option Value

/-- `Response::new`. -/
def Response.new (payload : Except Error Value) : Response := ⟨payload, none⟩

/-- `Response::to_json`: `jsonrpc`, `id` (null when absent), then exactly one
of `result` / `error`. -/
def Response.to_json (r : Response) : Value :=
  let m := aInsert [] "jsonrpc" (Value.str "2.0")
  let m := match r.id with
    | some i => aInsert m "id" i
    | none => aInsert m "id" Value.null
  let m := match r.payload with
    | .ok result => aInsert m "result" result
    | .error e => aInsert m "error" e.to_json
  Value.obj m

/-- `Response::from_json` (takes the object map): requires an `id` key;
requires exactly one of `result` / `error` (`contains_key k` is
`(aGet m k).isSome`, so the two are matched directly; the source's
`unwrap` is covered by the `some` arms). -/
def Response.from_json (map : List (String × Value)) : Except Error Response :=
  let err := Error.invalid_request
  match aGet map "id" with
  | none => .error err
  | some id =>
    match aGet map "result", aGet map "error" with
    | some result, none => .ok ⟨.ok result, some id⟩
    | none, some errVal =>
        match Error.from_json errVal with
        | .ok e => .ok ⟨.error e, some id⟩
        | .error e2 => .error e2
    | _, _ => .error err

/-- `std::io::ErrorKind` as of the source's Rust era. -/
inductive IoErrorKind where
  | notFound | permissionDenied | connectionRefused | connectionReset
  | connectionAborted | notConnected | addrInUse | addrNotAvailable
  | brokenPipe | alreadyExists | wouldBlock | invalidInput | invalidData
  | timedOut | writeZero | interrupted | other | unexpectedEof
deriving DecidableEq

/-- `transport::TransportError`; the `IOError` variant carries the underlying
I/O error, represented by its kind. -/
inductive TransportError where
  | endOfFile
  | timedOut
  | interrupted
  | parseError
  | encodeError
  | ioError : IoErrorKind → TransportError
deriving DecidableEq

/-- `impl From<io::Error> for TransportError`, matching on the error kind. -/
def TransportError.from_io : IoErrorKind → TransportError
  | .notFound | .permissionDenied | .connectionRefused | .connectionReset
  | .connectionAborted | .notConnected | .addrInUse | .addrNotAvailable
  | .brokenPipe => .endOfFile
  | .timedOut | .writeZero | .wouldBlock => .timedOut
  | .interrupted => .interrupted
  | k => .ioError k

/-- `2 ^ 64`, the modulus of the `u64` request-id counter. -/
def u64Mod : Nat := 2 ^ 64

/-- `client::ClientEndpoint` state: the next request id and the shared
pending-handler table (`HashMap<u64, Box<ResponseHandler>>`). Handlers are
abstracted by a type `α`; the outbound channel and the writer thread are
abstracted into the submission outcome of `send`. -/
structure ClientState (α : Type) where
  next_id : Nat
  handlers : List (Nat × α)

/-- The freshly constructed endpoint: counter 0, empty table. -/
def ClientState.init {α : Type} : ClientState α := ⟨0, []⟩

/-- `ClientEndpoint::send`: serialization failure is an encode error, a closed
outbound channel is an end-of-file error. Whether serialization succeeds and
whether the channel is open are environment facts, passed as flags. -/
def clientSend (encodeOk channelOpen : Bool) : Except TransportError Unit :=
  if !encodeOk then .error .encodeError
  else if !channelOpen then .error .endOfFile
  else .ok ()

/-- `ClientEndpoint::send_request`: allocate the next id (u64 increment),
stamp it on the request, submit the serialized text, and insert the handler
into the pending table only if submission succeeded. -/
def send_request {α : Type} (st : ClientState α) (encodeOk channelOpen : Bool)
    (request : Request) (handler : α) :
    Except TransportError Unit × ClientState α :=
  let id := st.next_id
  let st1 : ClientState α := { st with next_id := (id + 1) % u64Mod }
  let _stamped := request.set_id (Value.u64 id)
  match clientSend encodeOk channelOpen with
  | .error e => (.error e, st1)
  | .ok _ => (.ok (), { st1 with handlers := aInsert st1.handlers id handler })

/-- Observable events of the correlation engine: registration of a handler
for an id on the send path, and invocation of a handler on delivery. -/
inductive CEvent (α : Type) where
  | reg (id : Nat) (h : α)
  | inv (id : Nat) (h : α)

/-- Operations applied to a client endpoint. All pending-table accesses in
the source happen under one mutex, so executions serialize into such a
sequence; `deliver id` is `StreamPayloadHandler::handle_response_with_id`
for a response whose id extracted as `u64` is `id`. -/
inductive COp (α : Type) where
  | send (encodeOk channelOpen : Bool) (request : Request) (handler : α)
  | deliver (id : Nat)

/-- One step of the engine, returning the new state and the emitted events.
`deliver` performs `handlers.remove(&id)` (lookup and delete) and invokes
the removed handler if one was present; otherwise the response is dropped. -/
def clientStep {α : Type} (st : ClientState α) : COp α → ClientState α × List (CEvent α)
  | .send encodeOk channelOpen request handler =>
      match send_request st encodeOk channelOpen request handler with
      | (.ok _, st1) => (st1, [.reg st.next_id handler])
      | (.error _, st1) => (st1, [])
  | .deliver id =>
      match aGet st.handlers id with
      | some h => ({ st with handlers := aErase st.handlers id }, [.inv id h])
      | none => (st, [])

/-- Runs a sequence of operations from a state, collecting all events. -/
def clientRun {α : Type} (st : ClientState α) :
    List (COp α) → ClientState α × List (CEvent α)
  | [] => (st, [])
  | op :: ops =>
      let p := clientStep st op
      let q := clientRun p.1 ops
      (q.1, p.2 ++ q.2)

/-- Number of registration events for a given id in an event log. -/
def regCount {α : Type} (log : List (CEvent α)) (k : Nat) : Nat :=
  log.countP fun e => match e with | .reg j _ => j == k | _ => false

/-- Number of invocation events for a given id in an event log. -/
def invCount {α : Type} (log : List (CEvent α)) (k : Nat) : Nat :=
  log.countP fun e => match e with | .inv j _ => j == k | _ => false

/-- Number of send operations in an operation sequence. -/
def sendCount {α : Type} (ops : List (COp α)) : Nat :=
  ops.countP fun op => match op with | .send _ _ _ _ => true | _ => false

/-- Observable events of one run of
`StreamPayloadHandler::handle_response_with_id`, in source order: the mutex
is locked, the entry is removed (`found` records whether one was present),
the removed handler (if any) is invoked, and the mutex guard is dropped at
the end of the function scope — after the invocation. -/
inductive LockEvent where
  | lockAcquire
  | tableRemove (found : Bool)
  | handlerInvoke
  | lockRelease
deriving DecidableEq

/-- The event trace of `handle_response_with_id` on a given table and id. -/
def handle_response_with_id_events {α : Type} (handlers : List (Nat × α))
    (id : Nat) : List LockEvent :=
  [.lockAcquire, .tableRemove (aGet handlers id).isSome]
    ++ (match aGet handlers id with
        | some _ => [.handlerInvoke]
        | none => [])
    ++ [.lockRelease]

/-- `a` occurs in the list strictly before any occurrence of `b` (scanning
left to right, `a` is found while no `b` has been seen, and a `b` follows). -/
def occursBefore : List LockEvent → LockEvent → LockEvent → Bool
  | [], _, _ => false
  | e :: rest, a, b =>
      if e = a then rest.contains b
      else if e = b then false
      else occursBefore rest a b

/-- `StreamPayloadHandler::handle_response`: classification of a decoded
response by the shape of its id. -/
inductive ResponseAction where
  | deliver (id : Nat)
  | dropNonIntegerId
  | dropNoId
deriving DecidableEq

/-- The client response path after decoding: extract the id, requiring it to
be representable as `u64`; otherwise drop. -/
def handle_response_action (r : Response) : ResponseAction :=
  match r.id with
  | some v =>
      match v.as_u64 with
      | some id => .deliver id
      | none => .dropNonIntegerId
  | none => .dropNoId

/-- The server-side `Responder`'s inner `handle_request`: a request with an
id is a call (the application handler's result is wrapped in a response); a
request without an id is a notification (the notification handler runs, no
reply). The application handler is passed as a function `hcall`. -/
def responder_handle_request (hcall : Request → Except Error Value)
    (request : Request) : Option Response :=
  match request.id with
  | some _ => some (Response.new (hcall request))
  | none => none

/-- `Responder::handle_json`: decode a request and handle it, or reply with
the decode error. -/
def responder_handle_json (hcall : Request → Except Error Value)
    (json : Value) : Option Value :=
  match Request.from_json json with
  | .ok request => (responder_handle_request hcall request).map Response.to_json
  | .error rpc_error => some (Response.to_json (Response.new (.error rpc_error)))

/-- `ServerCallback::handle_request` for `Responder`, at the JSON level: the
argument is the result of parsing the inbound text (`none` = parse failure),
and the returned reply is its JSON value (`serde_json::to_string` of a value
always succeeds and is injective, so text is abstracted away). On a parsed
frame the raw `id` member is read first and, if present, overwrites the
`id` of any object reply produced. -/
def responder_handle_frame (hcall : Request → Except Error Value)
    (parsed : Option Value) : Option Value :=
  match parsed with
  | some json =>
      let request_id := match json with
        | .obj map => aGet map "id"
        | _ => none
      match responder_handle_json hcall json with
      | some reply =>
          some (match reply, request_id with
            | .obj map, some i => Value.obj (aInsert map "id" i)
            | other, _ => other)
      | none => none
  | none => some (Response.to_json (Response.new (.error Error.parse_error)))

/-- Written from the amended claim's words: connection-refused, -reset,
-aborted, broken-pipe, and additionally not-found, permission-denied,
not-connected, addr-in-use and addr-not-available become end-of-file;
timed-out, would-block and write-zero become timed-out; interrupted stays
interrupted; the remaining kinds pass through in the I/O category. -/
def transportClassAmendedSpec (k : IoErrorKind) : TransportError :=
  if k ∈ [IoErrorKind.connectionRefused, .connectionReset, .connectionAborted,
      .brokenPipe, .notFound, .permissionDenied, .notConnected, .addrInUse,
      .addrNotAvailable] then .endOfFile
  else if k ∈ [IoErrorKind.timedOut, .wouldBlock, .writeZero] then .timedOut
  else if k = .interrupted then .interrupted
  else .ioError k

/-- Inductive invariant of the correlation engine after processing a
sequence of operations that contained `s` sends, with accumulated event log
`log`: the counter sits at `s` (mod `2 ^ 64`), every registered id is below
`s` and registered at most once, invocations never exceed registrations,
and an id currently in the table has been registered exactly once and never
invoked. -/
structure CInv {α : Type} (st : ClientState α) (log : List (CEvent α))
    (s : Nat) : Prop where
  nid : st.next_id = s % u64Mod
  regLt : ∀ k, 1 ≤ regCount log k → k < s
  regOnce : ∀ k, regCount log k ≤ 1
  invLe : ∀ k, invCount log k ≤ regCount log k
  tbl : ∀ k, (aGet st.handlers k).isSome →
    regCount log k = 1 ∧ invCount log k = 0

section MapLemmas

variable {κ β : Type} [DecidableEq κ]

theorem aGet_aInsert_self (m : List (κ × β)) (k : κ) (v : β) :
    aGet (aInsert m k v) k = some v := by
  induction m with
  | nil => simp [aInsert, aGet]
  | cons p rest ih =>
      by_cases h : p.1 = k
      · simp [aInsert, aGet, h]
      · simp [aInsert, aGet, h, ih]

theorem aGet_aInsert_ne (m : List (κ × β)) (k j : κ) (v : β) (hkj : k ≠ j) :
    aGet (aInsert m k v) j = aGet m j := by
  induction m with
  | nil => simp [aInsert, aGet, hkj]
  | cons p rest ih =>
      by_cases h : p.1 = k
      · subst h
        simp [aInsert, aGet, hkj]
      · simp [aInsert, aGet, h, ih]

theorem aGet_aErase_self (m : List (κ × β)) (k : κ) :
    aGet (aErase m k) k = none := by
  induction m with
  | nil => simp [aErase, aGet]
  | cons p rest ih =>
      by_cases h : p.1 = k
      · simpa [aErase, aGet, h] using ih
      · simpa [aErase, aGet, h] using ih

theorem aGet_aErase_ne (m : List (κ × β)) (k j : κ) (hjk : j ≠ k) :
    aGet (aErase m k) j = aGet m j := by
  induction m with
  | nil => simp [aErase, aGet]
  | cons p rest ih =>
      by_cases h : p.1 = k
      · subst h
        have : p.1 ≠ j := fun hc => hjk hc.symm
        simpa [aErase, aGet, this] using ih
      · by_cases hj : p.1 = j
        · simp [aErase, aGet, List.filter_cons, h, hj, hjk]
        · simpa [aErase, aGet, List.filter_cons, h, hj] using ih

end MapLemmas

section CountLemmas

variable {α : Type}

theorem regCount_nil (k : Nat) : regCount ([] : List (CEvent α)) k = 0 := rfl

theorem invCount_nil (k : Nat) : invCount ([] : List (CEvent α)) k = 0 := rfl

theorem regCount_append (l₁ l₂ : List (CEvent α)) (k : Nat) :
    regCount (l₁ ++ l₂) k = regCount l₁ k + regCount l₂ k :=
  List.countP_append _ _ _

theorem invCount_append (l₁ l₂ : List (CEvent α)) (k : Nat) :
    invCount (l₁ ++ l₂) k = invCount l₁ k + invCount l₂ k :=
  List.countP_append _ _ _

theorem regCount_reg (j k : Nat) (h : α) :
    regCount [CEvent.reg j h] k = if j = k then 1 else 0 := by
  by_cases hjk : j = k <;> simp [regCount, List.countP_cons, hjk]

theorem regCount_inv (j k : Nat) (h : α) : regCount [CEvent.inv j h] k = 0 := by
  simp [regCount, List.countP_cons]

theorem invCount_inv (j k : Nat) (h : α) :
    invCount [CEvent.inv j h] k = if j = k then 1 else 0 := by
  by_cases hjk : j = k <;> simp [invCount, List.countP_cons, hjk]

theorem invCount_reg (j k : Nat) (h : α) : invCount [CEvent.reg j h] k = 0 := by
  simp [invCount, List.countP_cons]

theorem sendCount_send (e c : Bool) (r : Request) (h : α) (ops : List (COp α)) :
    sendCount (COp.send e c r h :: ops) = sendCount ops + 1 := by
  simp [sendCount, List.countP_cons]

theorem sendCount_deliver (k : Nat) (ops : List (COp α)) :
    sendCount (COp.deliver k :: ops) = sendCount ops := by
  simp [sendCount, List.countP_cons]

end CountLemmas

/-- `Response::to_json` always produces a JSON object. -/
theorem Response.to_json_obj (r : Response) :
    ∃ m, Response.to_json r = Value.obj m ∧
      aGet m "jsonrpc" = some (Value.str "2.0") := by
  obtain ⟨payload, id⟩ := r
  cases payload <;> cases id <;> exact ⟨_, rfl, rfl⟩

/-- `Responder::handle_json` only ever replies with a JSON object
(a serialized `Response`). -/
theorem responder_handle_json_obj (hcall : Request → Except Error Value)
    (json : Value) (reply : Value)
    (h : responder_handle_json hcall json = some reply) :
    ∃ m, reply = Value.obj m := by
  unfold responder_handle_json at h
  cases hreq : Request.from_json json with
  | ok request =>
      rw [hreq] at h
      dsimp only at h
      cases hid : request.id with
      | none => simp [responder_handle_request, hid] at h
      | some i =>
          simp only [responder_handle_request, hid, Option.map_some] at h
          obtain ⟨m, hm, _⟩ := Response.to_json_obj (Response.new (hcall request))
          exact ⟨m, by rw [← Option.some_inj.mp h, hm]⟩
  | error e =>
      rw [hreq] at h
      obtain ⟨m, hm, _⟩ := Response.to_json_obj (Response.new (.error e))
      exact ⟨m, by rw [← Option.some_inj.mp h, hm]⟩

/-- Claim C1: the round trip `decode(encode(x)) == x` is claimed for
`Error` values, but it fails for every `Error`: `Error::to_json` writes the
code under the key `code`, while `Error::from_json` reads it back from the
key `id`, so decoding the encoding of any `Error` yields an
invalid-request failure instead of the original value. -/
theorem c1_error_roundtrip_fails (e : Error) :
    Error.from_json (Error.to_json e) = .error Error.invalid_request := by
  obtain ⟨code, message, data⟩ := e
  cases data <;> rfl

/-- Witness for C1's failing evaluation at a concrete `Error`. -/
theorem c1_witness :
    Error.from_json (Error.to_json Error.method_not_found)
      = .error Error.invalid_request :=
  c1_error_roundtrip_fails Error.method_not_found

/-- Claim C2: `Error::from_json` is claimed to succeed exactly on objects
with an integer `code` and a string `message`; in fact it rejects such an
object (no `id` key) and accepts an object with an integer `id` and a
string `message`, taking the code from `id`. -/
theorem c2_error_decode_misreads_code_field :
    Error.from_json (.obj [("code", .i64 5), ("message", .str "m")])
        = .error Error.invalid_request ∧
    Error.from_json (.obj [("id", .i64 7), ("message", .str "m")])
        = .ok ⟨7, "m", none⟩ :=
  ⟨rfl, rfl⟩

/-- Claim C7 counterexample: the claim says every I/O error kind outside
the three listed groups passes through unchanged, but `NotFound` (among
others) is mapped to end-of-file, not passed through. -/
theorem c7_counterexample :
    TransportError.from_io .notFound = .endOfFile ∧
    TransportError.from_io .notFound ≠ .ioError .notFound :=
  ⟨rfl, by decide⟩

/-- Claim C7 (amended): the conversion maps connection-refused, -reset,
-aborted, broken-pipe and also not-found, permission-denied, not-connected,
addr-in-use, addr-not-available to end-of-file; timed-out, would-block and
write-zero to timed-out; interrupted to interrupted; and passes the
remaining kinds through in the I/O category. -/
theorem c7_io_error_classification (k : IoErrorKind) :
    TransportError.from_io k = transportClassAmendedSpec k := by
  cases k <;> rfl

/-- Witness for the amended C7 at a concrete error kind. -/
theorem c7_witness :
    TransportError.from_io .notFound = transportClassAmendedSpec .notFound :=
  c7_io_error_classification .notFound

/-- Claim C8: on input text that fails to parse as JSON, the responder
returns a reply whose error code is `-32700` and which carries no
recovered id: the synthesized `Response` has no id, and its serialized
form carries a null `id` member. -/
theorem c8_parse_error_reply (hcall : Request → Except Error Value) :
    (Response.new (.error Error.parse_error)).id = none ∧
    ∃ m em, responder_handle_frame hcall none = some (.obj m) ∧
      aGet m "id" = some Value.null ∧
      aGet m "error" = some (.obj em) ∧
      aGet em "code" = some (.i64 (-32700)) :=
  ⟨rfl, [("jsonrpc", .str "2.0"), ("id", .null),
      ("error", .obj [("code", .i64 (-32700)), ("message", .str "Parse error")])],
    [("code", .i64 (-32700)), ("message", .str "Parse error")],
    rfl, rfl, rfl, rfl⟩

/-- Witness for C8 at a concrete application handler. -/
theorem c8_witness :
    (Response.new (.error Error.parse_error)).id = none ∧
    ∃ m em, responder_handle_frame (fun _ => .ok .null) none = some (.obj m) ∧
      aGet m "id" = some Value.null ∧
      aGet m "error" = some (.obj em) ∧
      aGet em "code" = some (.i64 (-32700)) :=
  c8_parse_error_reply (fun _ => .ok .null)

/-- Claim C5 counterexample: with one pending entry for id 0, the delivery
trace is acquire, remove, invoke, release — the handler invocation does not
occur after the lock release (the mutex guard is dropped only at the end of
the function), contradicting the claim that the handler is invoked outside
of any lock. -/
theorem c5_counterexample :
    handle_response_with_id_events [(0, 0)] 0
      = [.lockAcquire, .tableRemove true, .handlerInvoke, .lockRelease] ∧
    occursBefore (handle_response_with_id_events [(0, 0)] 0)
      .lockRelease .handlerInvoke = false ∧
    occursBefore (handle_response_with_id_events [(0, 0)] 0)
      .handlerInvoke .lockRelease = true :=
  ⟨rfl, rfl, rfl⟩

/-- Claim C5 (amended): on delivery of a response whose id has a pending
handler, the entry is removed under the lock and the removed handler is
invoked while the lock is still held — after acquisition and before
release, which only happens at the end of the delivery function — so a
slow or blocking handler can stall other deliveries and sends. -/
theorem c5_handler_invoked_under_lock {α : Type} (handlers : List (Nat × α))
    (id : Nat) (h : α) (hfound : aGet handlers id = some h) :
    handle_response_with_id_events handlers id
      = [.lockAcquire, .tableRemove true, .handlerInvoke, .lockRelease] ∧
    occursBefore (handle_response_with_id_events handlers id)
      .lockAcquire .handlerInvoke = true ∧
    occursBefore (handle_response_with_id_events handlers id)
      .handlerInvoke .lockRelease = true := by
  have htr : handle_response_with_id_events handlers id
      = [.lockAcquire, .tableRemove true, .handlerInvoke, .lockRelease] := by
    simp [handle_response_with_id_events, hfound]
  exact ⟨htr, by rw [htr]; rfl, by rw [htr]; rfl⟩

/-- Witness for the amended C5 at a concrete table. -/
theorem c5_witness :
    aGet [(0, 1)] 0 = some 1 ∧
    (handle_response_with_id_events [(0, 1)] 0
        = [.lockAcquire, .tableRemove true, .handlerInvoke, .lockRelease] ∧
      occursBefore (handle_response_with_id_events [(0, 1)] 0)
        .lockAcquire .handlerInvoke = true ∧
      occursBefore (handle_response_with_id_events [(0, 1)] 0)
        .handlerInvoke .lockRelease = true) :=
  ⟨rfl, c5_handler_invoked_under_lock [(0, 1)] 0 1 rfl⟩

/-- Claim C9: every response produced by a successful `Response::from_json`
has a present id, so the delivery-path branch that drops a decoded response
for having no id at all is unreachable for decoded responses. -/
theorem c9_decoded_response_has_id (map : List (String × Value)) (r : Response)
    (h : Response.from_json map = .ok r) :
    r.id.isSome = true ∧ handle_response_action r ≠ .dropNoId := by
  unfold Response.from_json at h
  cases hid : aGet map "id" with
  | none => rw [hid] at h; simp at h
  | some id =>
      rw [hid] at h
      have hrid : r.id = some id := by
        cases hres : aGet map "result" <;> cases herr : aGet map "error" <;>
          rw [hres, herr] at h <;> dsimp only at h
        · simp at h
        · cases hdec : Error.from_json ‹Value› with
          | ok e => rw [hdec] at h; cases h; rfl
          | error e2 => rw [hdec] at h; simp at h
        · cases h; rfl
        · simp at h
      refine ⟨by simp [hrid], ?_⟩
      unfold handle_response_action
      rw [hrid]
      cases hu : id.as_u64 <;> simp [hu]

/-- Witness for C9 at a concrete decodable object. -/
theorem c9_witness :
    Response.from_json [("id", .u64 1), ("result", .null)]
        = .ok ⟨.ok .null, some (.u64 1)⟩ ∧
    ((⟨.ok .null, some (.u64 1)⟩ : Response).id.isSome = true ∧
      handle_response_action ⟨.ok .null, some (.u64 1)⟩ ≠ .dropNoId) :=
  ⟨rfl, c9_decoded_response_has_id [("id", .u64 1), ("result", .null)]
    ⟨.ok .null, some (.u64 1)⟩ rfl⟩

/-- Claim C10: neither `Request::from_json` nor `Response::from_json`
inspects the `jsonrpc` field — each depends only on the fields it reads
(`method`/`params`/`id`, resp. `id`/`result`/`error`), so two objects
agreeing on those decode identically whatever their `jsonrpc` member —
while both encoders always emit `jsonrpc: "2.0"`. -/
theorem c10_jsonrpc_marker_ignored :
    (∀ m₁ m₂ : List (String × Value),
      aGet m₁ "method" = aGet m₂ "method" →
      aGet m₁ "params" = aGet m₂ "params" →
      aGet m₁ "id" = aGet m₂ "id" →
      Request.from_json (.obj m₁) = Request.from_json (.obj m₂)) ∧
    (∀ m₁ m₂ : List (String × Value),
      aGet m₁ "id" = aGet m₂ "id" →
      aGet m₁ "result" = aGet m₂ "result" →
      aGet m₁ "error" = aGet m₂ "error" →
      Response.from_json m₁ = Response.from_json m₂) ∧
    (∀ r : Request, ∃ m, Request.to_json r = Value.obj m ∧
      aGet m "jsonrpc" = some (Value.str "2.0")) ∧
    (∀ r : Response, ∃ m, Response.to_json r = Value.obj m ∧
      aGet m "jsonrpc" = some (Value.str "2.0")) := by
  refine ⟨?_, ?_, ?_, Response.to_json_obj⟩
  · intro m₁ m₂ h1 h2 h3
    simp only [Request.from_json, h1, h2, h3]
  · intro m₁ m₂ h1 h2 h3
    simp only [Response.from_json, h1, h2, h3]
  · intro r
    obtain ⟨method, params, id⟩ := r
    cases params <;> cases id <;> exact ⟨_, rfl, rfl⟩

/-- Witness for C10: a request object with `jsonrpc: "1.0"` and one with no
`jsonrpc` member decode identically, and successfully. -/
theorem c10_witness :
    (aGet [("jsonrpc", Value.str "1.0"), ("method", Value.str "m")] "method"
        = aGet [("method", Value.str "m")] "method" ∧
      aGet [("jsonrpc", Value.str "1.0"), ("method", Value.str "m")] "params"
        = aGet [("method", Value.str "m")] "params" ∧
      aGet [("jsonrpc", Value.str "1.0"), ("method", Value.str "m")] "id"
        = aGet [("method", Value.str "m")] "id") ∧
    Request.from_json (.obj [("jsonrpc", Value.str "1.0"), ("method", Value.str "m")])
      = Request.from_json (.obj [("method", Value.str "m")]) ∧
    Request.from_json (.obj [("method", Value.str "m")]) = .ok ⟨"m", none, none⟩ :=
  ⟨⟨rfl, rfl, rfl⟩,
    c10_jsonrpc_marker_ignored.1 _ _ rfl rfl rfl, rfl⟩

/-- Claim C4: `send_request` registers the handler only if submission of
the serialized request succeeds. On serialization failure it returns an
encode error, on a closed outbound channel an end-of-file error, and in
either failure case the pending table is unchanged and the allocated id
(the pre-call `next_id`, which has no entry in any reachable state) has no
registered handler. -/
theorem c4_send_failure_no_registration {α : Type} (st : ClientState α)
    (encodeOk channelOpen : Bool) (request : Request) (handler : α)
    (hfresh : aGet st.handlers st.next_id = none) :
    (encodeOk = false →
      (send_request st encodeOk channelOpen request handler).1
        = .error .encodeError) ∧
    (encodeOk = true → channelOpen = false →
      (send_request st encodeOk channelOpen request handler).1
        = .error .endOfFile) ∧
    (∀ e, (send_request st encodeOk channelOpen request handler).1 = .error e →
      (send_request st encodeOk channelOpen request handler).2.handlers
          = st.handlers ∧
      aGet (send_request st encodeOk channelOpen request handler).2.handlers
          st.next_id = none) := by
  cases encodeOk <;> cases channelOpen <;>
    simp [send_request, clientSend, hfresh]

/-- Witness for C4: from the initial endpoint, a send with failing
serialization returns an encode error and registers nothing. -/
theorem c4_witness :
    aGet (ClientState.init (α := Nat)).handlers
        (ClientState.init (α := Nat)).next_id = none ∧
    ((false = false →
      (send_request (ClientState.init (α := Nat)) false true
          ⟨"m", none, none⟩ 7).1 = .error .encodeError) ∧
    (false = true → true = false →
      (send_request (ClientState.init (α := Nat)) false true
          ⟨"m", none, none⟩ 7).1 = .error .endOfFile) ∧
    (∀ e, (send_request (ClientState.init (α := Nat)) false true
          ⟨"m", none, none⟩ 7).1 = .error e →
      (send_request (ClientState.init (α := Nat)) false true
          ⟨"m", none, none⟩ 7).2.handlers
        = (ClientState.init (α := Nat)).handlers ∧
      aGet (send_request (ClientState.init (α := Nat)) false true
          ⟨"m", none, none⟩ 7).2.handlers
        (ClientState.init (α := Nat)).next_id = none)) :=
  ⟨rfl, c4_send_failure_no_registration ClientState.init false true
    ⟨"m", none, none⟩ 7 rfl⟩

/-- Claim C6: for an inbound frame that parses to a JSON object carrying an
`id` member, any reply emitted by the responder is a JSON object whose `id`
member equals that raw `id` value read from the parsed JSON — the overwrite
also applies when typed `Request` decoding failed. -/
theorem c6_reply_id_echoes_raw_id (hcall : Request → Except Error Value)
    (map : List (String × Value)) (i reply : Value)
    (hid : aGet map "id" = some i)
    (hrep : responder_handle_frame hcall (some (.obj map)) = some reply) :
    ∃ rm, reply = Value.obj rm ∧ aGet rm "id" = some i := by
  unfold responder_handle_frame at hrep
  dsimp only at hrep
  cases hj : responder_handle_json hcall (.obj map) with
  | none => rw [hj] at hrep; simp at hrep
  | some r =>
      rw [hj] at hrep
      obtain ⟨m2, hm2⟩ := responder_handle_json_obj hcall _ r hj
      subst hm2
      rw [hid] at hrep
      dsimp only at hrep
      refine ⟨aInsert m2 "id" i, ?_, aGet_aInsert_self m2 "id" i⟩
      exact (Option.some_inj.mp hrep).symm

/-- Witness for C6: a frame whose typed decode fails (no `method`) but which
carries `id: 3` gets a reply whose `id` is 3, not the null id the reply
construction produced. -/
theorem c6_witness :
    aGet [("id", Value.u64 3)] "id" = some (Value.u64 3) ∧
    responder_handle_frame (fun _ => .ok .null) (some (.obj [("id", Value.u64 3)]))
      = some (.obj [("jsonrpc", .str "2.0"), ("id", .u64 3),
          ("error", .obj [("code", .i64 (-32600)),
            ("message", .str "Invalid request")])]) ∧
    (∃ rm, (Value.obj [("jsonrpc", .str "2.0"), ("id", .u64 3),
          ("error", .obj [("code", .i64 (-32600)),
            ("message", .str "Invalid request")])]) = Value.obj rm ∧
      aGet rm "id" = some (Value.u64 3)) :=
  ⟨rfl, rfl,
    c6_reply_id_echoes_raw_id (fun _ => .ok .null) [("id", Value.u64 3)]
      (Value.u64 3) _ rfl rfl⟩

section CorrelationEngine

variable {α : Type}

theorem clientStep_send_ok (st : ClientState α) (req : Request) (hd : α) :
    clientStep st (.send true true req hd)
      = (⟨(st.next_id + 1) % u64Mod, aInsert st.handlers st.next_id hd⟩,
        [.reg st.next_id hd]) := rfl

theorem clientStep_send_encode_fail (st : ClientState α) (c : Bool)
    (req : Request) (hd : α) :
    clientStep st (.send false c req hd)
      = (⟨(st.next_id + 1) % u64Mod, st.handlers⟩, []) := rfl

theorem clientStep_send_channel_fail (st : ClientState α)
    (req : Request) (hd : α) :
    clientStep st (.send true false req hd)
      = (⟨(st.next_id + 1) % u64Mod, st.handlers⟩, []) := rfl

theorem clientRun_cons_fst (st : ClientState α) (op : COp α) (ops : List (COp α)) :
    (clientRun st (op :: ops)).1 = (clientRun (clientStep st op).1 ops).1 := rfl

theorem clientRun_cons_snd (st : ClientState α) (op : COp α) (ops : List (COp α)) :
    (clientRun st (op :: ops)).2
      = (clientStep st op).2 ++ (clientRun (clientStep st op).1 ops).2 := rfl

theorem CInv_init : CInv (ClientState.init (α := α)) [] 0 := by
  refine ⟨rfl, ?_, ?_, ?_, ?_⟩ <;>
    simp [regCount_nil, invCount_nil, ClientState.init, aGet]

theorem clientStep_send_inv {st : ClientState α} {log : List (CEvent α)}
    {s : Nat} (hI : CInv st log s) (hs : s < u64Mod)
    (eOk cOpen : Bool) (req : Request) (hd : α) :
    CInv (clientStep st (.send eOk cOpen req hd)).1
      (log ++ (clientStep st (.send eOk cOpen req hd)).2) (s + 1) := by
  have hid : st.next_id = s := by rw [hI.nid]; exact Nat.mod_eq_of_lt hs
  have hreg0 : regCount log s = 0 := by
    by_contra hne
    exact absurd (hI.regLt s (Nat.one_le_iff_ne_zero.mpr hne)) (lt_irrefl s)
  have hinv0 : invCount log s = 0 :=
    Nat.le_zero.mp (hreg0 ▸ hI.invLe s)
  cases eOk with
  | false =>
      rw [clientStep_send_encode_fail, hid]
      refine ⟨rfl, ?_, ?_, ?_, ?_⟩ <;> intro k <;>
        simp only [List.append_nil]
      · exact fun hk => Nat.lt_succ_of_lt (hI.regLt k hk)
      · exact hI.regOnce k
      · exact hI.invLe k
      · exact hI.tbl k
  | true =>
      cases cOpen with
      | false =>
          rw [clientStep_send_channel_fail, hid]
          refine ⟨rfl, ?_, ?_, ?_, ?_⟩ <;> intro k <;>
            simp only [List.append_nil]
          · exact fun hk => Nat.lt_succ_of_lt (hI.regLt k hk)
          · exact hI.regOnce k
          · exact hI.invLe k
          · exact hI.tbl k
      | true =>
          rw [clientStep_send_ok, hid]
          refine ⟨rfl, ?_, ?_, ?_, ?_⟩ <;> intro k <;>
            simp only [regCount_append, invCount_append, regCount_reg,
              invCount_reg]
          · intro hk
            by_cases hks : s = k
            · omega
            · simp only [hks, if_false] at hk
              exact Nat.lt_succ_of_lt (hI.regLt k (by omega))
          · by_cases hks : s = k
            · subst hks
              simp [hreg0]
            · simp only [hks, if_false]
              have := hI.regOnce k
              omega
          · have := hI.invLe k
            by_cases hks : s = k <;> simp [hks] <;> omega
          · intro hget
            by_cases hks : s = k
            · subst hks
              simp [hreg0, hinv0]
            · rw [aGet_aInsert_ne st.handlers s k hd hks] at hget
              obtain ⟨h1, h2⟩ := hI.tbl k hget
              simp only [hks, if_false]
              omega

theorem clientStep_deliver_inv {st : ClientState α} {log : List (CEvent α)}
    {s : Nat} (hI : CInv st log s) (k : Nat) :
    CInv (clientStep st (.deliver k)).1
      (log ++ (clientStep st (.deliver k)).2) s := by
  cases hg : aGet st.handlers k with
  | none =>
      have hstep : clientStep st (.deliver k) = (st, []) := by
        simp [clientStep, hg]
      rw [hstep]
      simpa using hI
  | some h =>
      have hstep : clientStep st (.deliver k)
          = ({ st with handlers := aErase st.handlers k }, [.inv k h]) := by
        simp [clientStep, hg]
      rw [hstep]
      obtain ⟨hreg1, hinv0⟩ := hI.tbl k (by simp [hg])
      refine ⟨hI.nid, ?_, ?_, ?_, ?_⟩ <;> intro j <;>
        simp only [regCount_append, invCount_append, regCount_inv,
          invCount_inv, Nat.add_zero]
      · exact hI.regLt j
      · exact hI.regOnce j
      · have := hI.invLe j
        by_cases hkj : k = j
        · subst hkj
          simp [hreg1, hinv0]
        · simp only [hkj, if_false]
          omega
      · intro hget
        by_cases hkj : k = j
        · subst hkj
          rw [aGet_aErase_self] at hget
          simp at hget
        · rw [aGet_aErase_ne st.handlers k j (fun hc => hkj hc.symm)] at hget
          obtain ⟨h1, h2⟩ := hI.tbl j hget
          simp only [hkj, if_false]
          omega

theorem clientRun_inv : ∀ (ops : List (COp α)) (st : ClientState α)
    (log : List (CEvent α)) (s : Nat), CInv st log s →
    s + sendCount ops ≤ u64Mod →
    CInv (clientRun st ops).1 (log ++ (clientRun st ops).2)
      (s + sendCount ops) := by
  intro ops
  induction ops with
  | nil =>
      intro st log s hI _
      simpa [clientRun, sendCount] using hI
  | cons op ops ih =>
      intro st log s hI hb
      cases op with
      | send eOk cOpen req hd =>
          rw [sendCount_send] at hb
          have hs : s < u64Mod := by omega
          have h1 := clientStep_send_inv hI hs eOk cOpen req hd
          have h2 := ih (clientStep st (.send eOk cOpen req hd)).1
            (log ++ (clientStep st (.send eOk cOpen req hd)).2) (s + 1) h1
            (by omega)
          rw [clientRun_cons_fst, clientRun_cons_snd, sendCount_send]
          rw [← List.append_assoc]
          have harith : s + (sendCount ops + 1) = s + 1 + sendCount ops := by
            omega
          rw [harith]
          exact h2
      | deliver k =>
          rw [sendCount_deliver] at hb
          have h1 := clientStep_deliver_inv hI k
          have h2 := ih (clientStep st (.deliver k)).1
            (log ++ (clientStep st (.deliver k)).2) s h1 (by omega)
          rw [clientRun_cons_fst, clientRun_cons_snd, sendCount_deliver]
          rw [← List.append_assoc]
          exact h2

end CorrelationEngine

/-- Claim C3: over any serialized sequence of engine operations from a fresh
endpoint (with at most `2 ^ 64` sends, the id space), each correlation id is
registered at most once and its handler is invoked at most once; and a
delivery for id `k` with a pending handler removes exactly the entry for
`k`, invokes exactly that handler (emitting exactly one invocation event),
leaves every other entry unchanged, and a second delivery for `k` then
finds no handler and invokes nothing. -/
theorem c3_at_most_once_delivery :
    (∀ {α : Type} (ops : List (COp α)) (k : Nat),
      sendCount ops ≤ u64Mod →
      regCount (clientRun ClientState.init ops).2 k ≤ 1 ∧
      invCount (clientRun ClientState.init ops).2 k ≤ 1) ∧
    (∀ {α : Type} (st : ClientState α) (k : Nat) (h : α),
      aGet st.handlers k = some h →
      clientStep st (.deliver k)
        = ({ st with handlers := aErase st.handlers k }, [.inv k h]) ∧
      aGet (aErase st.handlers k) k = none ∧
      (∀ j, j ≠ k → aGet (aErase st.handlers k) j = aGet st.handlers j) ∧
      clientStep { st with handlers := aErase st.handlers k } (.deliver k)
        = ({ st with handlers := aErase st.handlers k }, [])) := by
  constructor
  · intro α ops k hb
    have h := clientRun_inv ops ClientState.init [] 0 CInv_init
      (by simpa using hb)
    simp only [List.nil_append, Nat.zero_add] at h
    exact ⟨h.regOnce k, le_trans (h.invLe k) (h.regOnce k)⟩
  · intro α st k h hg
    refine ⟨by simp [clientStep, hg], aGet_aErase_self st.handlers k,
      fun j hj => aGet_aErase_ne st.handlers k j hj, ?_⟩
    simp [clientStep, aGet_aErase_self]

/-- Witness for C3: one successful send and two deliveries of the same id,
and a concrete one-entry table. -/
theorem c3_witness :
    (sendCount ([.send true true ⟨"m", none, none⟩ 7, .deliver 0, .deliver 0]
          : List (COp Nat)) ≤ u64Mod ∧
      regCount (clientRun ClientState.init
        ([.send true true ⟨"m", none, none⟩ 7, .deliver 0, .deliver 0]
          : List (COp Nat))).2 0 ≤ 1 ∧
      invCount (clientRun ClientState.init
        ([.send true true ⟨"m", none, none⟩ 7, .deliver 0, .deliver 0]
          : List (COp Nat))).2 0 ≤ 1) ∧
    (aGet [(0, 7)] 0 = some 7 ∧
      (clientStep (⟨1, [(0, 7)]⟩ : ClientState Nat) (.deliver 0)
          = (⟨1, aErase [(0, 7)] 0⟩, [.inv 0 7]) ∧
        aGet (aErase [(0, 7)] 0) 0 = none ∧
        (∀ j, j ≠ 0 → aGet (aErase [(0, 7)] 0) j = aGet [(0, 7)] j) ∧
        clientStep (⟨1, aErase [(0, 7)] 0⟩ : ClientState Nat) (.deliver 0)
          = (⟨1, aErase [(0, 7)] 0⟩, []))) :=
  ⟨⟨by decide,
    (c3_at_most_once_delivery.1
      ([.send true true ⟨"m", none, none⟩ 7, .deliver 0, .deliver 0]
        : List (COp Nat)) 0 (by decide)).1,
    (c3_at_most_once_delivery.1
      ([.send true true ⟨"m", none, none⟩ 7, .deliver 0, .deliver 0]
        : List (COp Nat)) 0 (by decide)).2⟩,
    rfl, c3_at_most_once_delivery.2 ⟨1, [(0, 7)]⟩ 0 7 rfl⟩

end JsonRpc
